import Mathlib

/-!
Shallow embedding of the calculator core of src/calculator.py.

The core consists of three pieces of `CalculatorLayout`:
  * the mutable state triple (`display_text`, `last_result`, `new_expression`),
  * `process_input(value)` (lines 108-159), the per-token state transition,
  * `evaluate_expression()` (lines 161-203) together with
    `is_safe_expression(expression)` (lines 205-226), the validation and
    evaluation step triggered by the `=` token.

Modelling conventions:
  * `display_text` is a `List Char`; the front end's button values become the
    inductive `Token` type (digits 0-9, `.`, the four operators, `C`, `DEL`, `=`).
  * Python numbers are modelled by exact fractions (`Frac`, an unreduced
    Int/Int pair).  Python evaluates `/` in IEEE doubles; on every input
    relevant to the claims the exact value and the double value coincide.
    Consequences: the `float('inf')` branch of `evaluate_expression`
    (line 184) can never fire in the model and is omitted, and host-level
    integer-to-float `OverflowError`s (which the source fails to catch) do
    not occur in the model.
  * `eval(expression, {"__builtins__": {}}, {})` (line 180) is modelled by
    `pyEval`: a tokenizer enforcing Python's numeric-literal rules (decimal
    integer literals must not have leading zeros; float literals may; a lone
    dot is invalid) followed by a precedence parser for `+ - * /`, unary
    sign, and parentheses, and an evaluator that raises a division-by-zero
    error exactly when a divisor's value is zero, as Python does for both
    int and float divisors.  Inputs on which Python's eval produces a
    non-number (empty parentheses producing tuples) or a call expression
    (juxtaposition such as `1(2)`, a runtime TypeError) are modelled as
    parse failures; the source maps both to the same `'Error'` display, and
    no parenthesis token can ever enter the buffer (the front end has no
    parenthesis buttons).
  * Python `str(int(result))` is modelled by `intStr`; `str(result)` for a
    non-integral float is modelled by `fracStr`, a sign + decimal-expansion
    rendering.  No claim depends on the exact characters of a non-integral
    rendering, only on those of integral results.
-/

/-- Operator tokens: the four binary operator characters of the keypad. -/
inductive Op
  | plus | minus | times | divide
deriving DecidableEq

/-- One discrete unit of user input, exactly the button values forwarded to
`process_input`: digits `0`-`9`, `.`, `+ - * /`, `C`, `DEL`, `=`. -/
inductive Token
  | digit (d : Fin 10)
  | dot
  | op (o : Op)
  | clear
  | del
  | eq
deriving DecidableEq

def opChar : Op → Char
  | .plus => '+'
  | .minus => '-'
  | .times => '*'
  | .divide => '/'

/-- The display character of a decimal digit. -/
def digitChar (n : Nat) : Char :=
  if n = 0 then '0' else if n = 1 then '1' else if n = 2 then '2' else if n = 3 then '3'
  else if n = 4 then '4' else if n = 5 then '5' else if n = 6 then '6' else if n = 7 then '7'
  else if n = 8 then '8' else '9'

/-- Membership test `c in '+-*/'` used throughout `process_input`. -/
def isOpChar (c : Char) : Bool := c == '+' || c == '-' || c == '*' || c == '/'

/-- Exact fraction: an unreduced pair numerator/denominator.  All fractions
produced by evaluation have a nonzero denominator. -/
structure Frac where
  num : Int
  den : Int
deriving DecidableEq

def Frac.ofInt (n : Int) : Frac := ⟨n, 1⟩

def Frac.neg (a : Frac) : Frac := ⟨-a.num, a.den⟩

def Frac.add (a b : Frac) : Frac := ⟨a.num * b.den + b.num * a.den, a.den * b.den⟩

def Frac.sub (a b : Frac) : Frac := ⟨a.num * b.den - b.num * a.den, a.den * b.den⟩

def Frac.mul (a b : Frac) : Frac := ⟨a.num * b.num, a.den * b.den⟩

def Frac.div (a b : Frac) : Frac := ⟨a.num * b.den, a.den * b.num⟩

/-- The test `result == int(result)` of line 186: the value is an integer. -/
def Frac.isInt (a : Frac) : Bool := a.num % a.den == 0

/-- The sign of the exact value (negative iff numerator and denominator have
opposite signs). -/
def Frac.isNeg (a : Frac) : Bool := (decide (a.num < 0)) != (decide (a.den < 0))

/-- The state triple of `CalculatorLayout`: `display_text` (StringProperty,
initially `'0'`), `last_result` (NumericProperty, initially `0`) and
`new_expression` (initially `True`). -/
structure CalcState where
  display_text : List Char
  last_result : Frac
  new_expression : Bool
deriving DecidableEq

/-! ### is_safe_expression (lines 205-226) -/

/-- Python regex search for `[+\-*/]{2,}`: two adjacent operator characters. -/
def hasAdjacentOps : List Char → Bool
  | a :: b :: rest => (isOpChar a && isOpChar b) || hasAdjacentOps (b :: rest)
  | _ => false

/-- Helper for the `\.\d*\.` search: after a dot, skip digits and look for a
second dot. -/
def dotRunAfter : List Char → Bool
  | [] => false
  | c :: rest => if c == '.' then true else if c.isDigit then dotRunAfter rest else false

/-- Python regex search for `\.\d*\.`: two dots separated only by digits. -/
def hasDoubleDot : List Char → Bool
  | [] => false
  | c :: rest => (c == '.' && dotRunAfter rest) || hasDoubleDot rest

/-- Python whitespace characters matched by `\s` (ASCII range). -/
def isSpaceChar (c : Char) : Bool :=
  c == ' ' || c == '\t' || c == '\n' || c == '\r' || c == '\x0b' || c == '\x0c'

/-- Character class of the safe pattern `[\d+\-*/.()\s]`. -/
def isSafeChar (c : Char) : Bool :=
  c.isDigit || isOpChar c || c == '.' || c == '(' || c == ')' || isSpaceChar c

/-- The check `expression[0] in '+*/'` of line 219 (a leading `-` is allowed). -/
def startsWithBadOp : List Char → Bool
  | [] => false
  | c :: _ => c == '+' || c == '*' || c == '/'

/-- `is_safe_expression` (lines 205-226): reject adjacent operators, a double
dot inside a numeric run, a leading `+ * /`, unbalanced parenthesis counts,
and any character outside the safe class; the final `re.match` also requires
a nonempty string. -/
def is_safe_expression (e : List Char) : Bool :=
  !hasAdjacentOps e && !hasDoubleDot e && !startsWithBadOp e &&
    (e.count '(' == e.count ')') && (!e.isEmpty && e.all isSafeChar)

/-! ### The model of Python eval (line 180) restricted to the safe charset -/

/-- Tokens of a Python arithmetic expression over the calculator charset. -/
inductive Tok
  | num (v : Frac)
  | tplus | tminus | tstar | tslash | tlp | trp
deriving DecidableEq

def charVal (c : Char) : Nat := c.toNat - 48

def digitsVal (l : List Char) : Nat := l.foldl (fun a c => 10 * a + charVal c) 0

/-- Value and validity of one maximal digits-and-dots run, per Python's
numeric literal grammar: a decimal integer literal is either all zeros or
starts with a nonzero digit (`05` is a SyntaxError); a float literal needs a
digit on at least one side of its single dot and may have leading zeros; a
run with two dots is never a valid literal (Python would split it into two
adjacent number tokens, which is equally a SyntaxError). -/
def litVal (run : List Char) : Option Frac :=
  let ip := run.takeWhile (fun c => c != '.')
  match run.dropWhile (fun c => c != '.') with
  | [] =>
      if !ip.isEmpty && (ip.all (fun c => c == '0') || !(ip.head? == some '0')) then
        some (Frac.ofInt (digitsVal ip))
      else none
  | _ :: fp =>
      if fp.all (fun c => c != '.') && (!ip.isEmpty || !fp.isEmpty) then
        some ⟨(digitsVal (ip ++ fp) : Int), ((10 : Int) ^ fp.length)⟩
      else none

def isNumChar (c : Char) : Bool := c.isDigit || c == '.'

/-- Fuel-driven tokenizer; the fuel is the length of the input, and every
step consumes at least one character. -/
def tokenizeAux : Nat → List Char → Option (List Tok)
  | _, [] => some []
  | 0, _ :: _ => none
  | fuel + 1, c :: rest =>
    if isSpaceChar c then tokenizeAux fuel rest
    else if c == '+' then (tokenizeAux fuel rest).map (Tok.tplus :: ·)
    else if c == '-' then (tokenizeAux fuel rest).map (Tok.tminus :: ·)
    else if c == '*' then (tokenizeAux fuel rest).map (Tok.tstar :: ·)
    else if c == '/' then (tokenizeAux fuel rest).map (Tok.tslash :: ·)
    else if c == '(' then (tokenizeAux fuel rest).map (Tok.tlp :: ·)
    else if c == ')' then (tokenizeAux fuel rest).map (Tok.trp :: ·)
    else if isNumChar c then
      match litVal (c :: rest.takeWhile isNumChar) with
      | some v => (tokenizeAux fuel (rest.dropWhile isNumChar)).map (Tok.num v :: ·)
      | none => none
    else none

def tokenize (e : List Char) : Option (List Tok) := tokenizeAux e.length e

/-- Abstract syntax of the parsed expression. -/
inductive PExpr
  | num (v : Frac)
  | neg (e : PExpr)
  | add (a b : PExpr)
  | sub (a b : PExpr)
  | mul (a b : PExpr)
  | div (a b : PExpr)
deriving DecidableEq

/-- Modes of the recursive-descent parser: an additive expression, its
left-associative continuation, a multiplicative term, its continuation, a
signed factor, an atom. -/
inductive PMode
  | expr
  | exprLoop (acc : PExpr)
  | term
  | termLoop (acc : PExpr)
  | factor
  | atom

/-- Fuel-driven precedence parser: `* /` bind tighter than `+ -`, both are
left associative, unary sign applies to a factor, parentheses override.
Unary plus is value-level identity on numbers and is parsed as such. -/
def parseM : Nat → PMode → List Tok → Option (PExpr × List Tok)
  | 0, _, _ => none
  | fuel + 1, m, ts =>
    match m, ts with
    | .atom, .num v :: rest => some (.num v, rest)
    | .atom, .tlp :: rest =>
        match parseM fuel .expr rest with
        | some (e, .trp :: rest2) => some (e, rest2)
        | _ => none
    | .atom, _ => none
    | .factor, .tminus :: rest => (parseM fuel .factor rest).map (fun p => (.neg p.1, p.2))
    | .factor, .tplus :: rest => parseM fuel .factor rest
    | .factor, _ => parseM fuel .atom ts
    | .term, _ =>
        match parseM fuel .factor ts with
        | some (e, rest) => parseM fuel (.termLoop e) rest
        | none => none
    | .termLoop acc, .tstar :: rest =>
        match parseM fuel .factor rest with
        | some (e, rest2) => parseM fuel (.termLoop (.mul acc e)) rest2
        | none => none
    | .termLoop acc, .tslash :: rest =>
        match parseM fuel .factor rest with
        | some (e, rest2) => parseM fuel (.termLoop (.div acc e)) rest2
        | none => none
    | .termLoop acc, _ => some (acc, ts)
    | .expr, _ =>
        match parseM fuel .term ts with
        | some (e, rest) => parseM fuel (.exprLoop e) rest
        | none => none
    | .exprLoop acc, .tplus :: rest =>
        match parseM fuel .term rest with
        | some (e, rest2) => parseM fuel (.exprLoop (.add acc e)) rest2
        | none => none
    | .exprLoop acc, .tminus :: rest =>
        match parseM fuel .term rest with
        | some (e, rest2) => parseM fuel (.exprLoop (.sub acc e)) rest2
        | none => none
    | .exprLoop acc, _ => some (acc, ts)

/-- The only runtime error of the restricted evaluator: ZeroDivisionError. -/
inductive RunErr
  | divZero
deriving DecidableEq

/-- Evaluation of the syntax tree: left subterm first, then right, raising
a division-by-zero error exactly when a divisor's value is zero. -/
def denoteP : PExpr → Except RunErr Frac
  | .num v => .ok v
  | .neg e =>
      match denoteP e with
      | .error x => .error x
      | .ok v => .ok (Frac.neg v)
  | .add a b =>
      match denoteP a, denoteP b with
      | .error x, _ => .error x
      | .ok _, .error x => .error x
      | .ok va, .ok vb => .ok (Frac.add va vb)
  | .sub a b =>
      match denoteP a, denoteP b with
      | .error x, _ => .error x
      | .ok _, .error x => .error x
      | .ok va, .ok vb => .ok (Frac.sub va vb)
  | .mul a b =>
      match denoteP a, denoteP b with
      | .error x, _ => .error x
      | .ok _, .error x => .error x
      | .ok va, .ok vb => .ok (Frac.mul va vb)
  | .div a b =>
      match denoteP a, denoteP b with
      | .error x, _ => .error x
      | .ok _, .error x => .error x
      | .ok va, .ok vb => if vb.num = 0 then .error .divZero else .ok (Frac.div va vb)

/-- Outcome of `eval(expression, ...)` on line 180: a syntax-level failure
(SyntaxError and the other caught exception classes), a ZeroDivisionError,
or a numeric value. -/
inductive PyResult
  | synErr
  | divZero
  | val (v : Frac)
deriving DecidableEq

def pyEval (e : List Char) : PyResult :=
  match tokenize e with
  | none => .synErr
  | some ts =>
      match parseM (10 * ts.length + 10) .expr ts with
      | some (ast, []) =>
          match denoteP ast with
          | .error .divZero => .divZero
          | .ok v => .val v
      | _ => .synErr

/-! ### Result formatting (lines 182-194) -/

/-- Decimal digits of a natural number, most significant first; fuel-driven
(`n + 1` fuel always suffices since `n / 10 < n` for positive `n`). -/
def natDigitsAux : Nat → Nat → List Char
  | 0, _ => []
  | fuel + 1, n => if n = 0 then [] else natDigitsAux fuel (n / 10) ++ [digitChar (n % 10)]

def natStr (n : Nat) : List Char := if n = 0 then ['0'] else natDigitsAux (n + 1) n

/-- Python `str` of an int: optional minus sign followed by decimal digits. -/
def intStr (i : Int) : List Char :=
  if i < 0 then '-' :: natStr i.natAbs else natStr i.natAbs

/-- Fractional decimal digits of `r / d`, fuel-limited. -/
def fracDigitsAux : Nat → Nat → Nat → List Char
  | 0, _, _ => []
  | fuel + 1, r, d =>
      if r = 0 then [] else digitChar (10 * r / d) :: fracDigitsAux fuel (10 * r % d) d

def stripTrailingZeros (l : List Char) : List Char :=
  (l.reverse.dropWhile (fun c => c == '0')).reverse

/-- The unsigned part of a non-integral rendering: integer part, dot, and up
to 17 fractional digits with trailing zeros removed. -/
def fracTail (f : Frac) : List Char :=
  let nn := f.num.natAbs
  let dd := f.den.natAbs
  let ds := stripTrailingZeros (fracDigitsAux 17 (nn % dd) dd)
  natStr (nn / dd) ++ '.' :: (if ds.isEmpty then ['0'] else ds)

/-- Rendering of a non-integral value: sign followed by the decimal
expansion.  This approximates Python's shortest-round-trip `str(float)`; no
claim depends on its exact characters. -/
def fracStr (f : Frac) : List Char :=
  (if f.isNeg then ['-'] else []) ++ fracTail f

/-- Lines 186-190: results equal to their own truncation are rendered via
`str(int(result))`, others via `str(result)`.  When `isInt` holds, all
integer division conventions agree on `num / den`. -/
def formatResult (f : Frac) : List Char :=
  if f.isInt then intStr (f.num / f.den) else fracStr f

/-! ### evaluate_expression (lines 161-203) -/

/-- The `while expression and expression[-1] in '+-*/'` loop of lines
166-167: remove trailing operator characters. -/
def stripTrailingOps (e : List Char) : List Char :=
  (e.reverse.dropWhile isOpChar).reverse

/-- `evaluate_expression` (lines 161-203) as a state transition.  Branches,
in source order: empty after stripping resets the display to `'0'` without
touching `new_expression`; an unsafe expression shows `'Error'` without
touching `new_expression`; a ZeroDivisionError shows `'Error: Div/0'` and a
caught eval failure shows `'Error'`, both setting `new_expression = True`;
success stores the formatted result and the numeric value and sets
`new_expression = True`. -/
def evaluate_expression (s : CalcState) : CalcState :=
  let e := stripTrailingOps s.display_text
  if e.isEmpty then { s with display_text := "0".data }
  else if !is_safe_expression e then { s with display_text := "Error".data }
  else
    match pyEval e with
    | .synErr => { s with display_text := "Error".data, new_expression := true }
    | .divZero => { s with display_text := "Error: Div/0".data, new_expression := true }
    | .val v => ⟨formatResult v, v, true⟩

/-! ### process_input (lines 108-159) -/

def isOpTok : Token → Bool
  | .op _ => true
  | _ => false

/-- `current_text[-1] in '+-*/'` guarded by nonemptiness (line 138). -/
def endsWithOp : List Char → Bool
  | [] => false
  | [c] => isOpChar c
  | _ :: c :: rest => endsWithOp (c :: rest)

/-- The decimal-point rejection test of lines 151-156: the part of the text
after the last operator character (`re.split(r'([+\-*/])', ...)[-1]`)
already contains a dot. -/
def dotInLastRun (l : List Char) : Bool :=
  (l.reverse.takeWhile (fun c => !isOpChar c)).contains '.'

/-- `process_input` (lines 108-159), one token applied to the state.  The
leading guard (lines 112-117) fires when `new_expression` is set and the
token is not an operator: a digit or dot replaces the text and clears the
flag, and every other such token (`C`, `DEL`, `=`) falls through the guard's
`return` leaving the state unchanged. -/
def process_input (s : CalcState) (t : Token) : CalcState :=
  if s.new_expression && !isOpTok t then
    match t with
    | .digit d => ⟨[digitChar d.val], s.last_result, false⟩
    | .dot => ⟨['.'], s.last_result, false⟩
    | _ => s
  else
    match t with
    | .clear => ⟨"0".data, Frac.ofInt 0, true⟩
    | .del =>
        if s.display_text.length > 1 then { s with display_text := s.display_text.dropLast }
        else { s with display_text := "0".data }
    | .eq => evaluate_expression s
    | .op o =>
        if endsWithOp s.display_text then
          ⟨s.display_text.dropLast ++ [opChar o], s.last_result, false⟩
        else ⟨s.display_text ++ [opChar o], s.last_result, false⟩
    | .digit d =>
        if s.display_text = "0".data then ⟨[digitChar d.val], s.last_result, false⟩
        else ⟨s.display_text ++ [digitChar d.val], s.last_result, false⟩
    | .dot =>
        if dotInLastRun s.display_text then s
        else ⟨s.display_text ++ ['.'], s.last_result, false⟩

/-- Session-start state: `display_text = '0'`, `last_result = 0`,
`new_expression = True` (lines 22-24). -/
def initState : CalcState := ⟨"0".data, Frac.ofInt 0, true⟩

def applyTokens (s : CalcState) (ts : List Token) : CalcState := ts.foldl process_input s

/-- States reachable from session start by some sequence of tokens. -/
inductive Reachable : CalcState → Prop
  | init : Reachable initState
  | step (s : CalcState) (t : Token) : Reachable s → Reachable (process_input s t)

/-- The error taxonomy of the evaluation step, read off the display strings
the source produces: `'0'`-reset for an empty stripped expression, `'Error'`
for pattern rejection and caught eval failures, `'Error: Div/0'` for a zero
divisor. -/
inductive EvalError
  | empty
  | invalidExpr
  | divisionByZero
deriving DecidableEq

instance {ε α : Type} [DecidableEq ε] [DecidableEq α] : DecidableEq (Except ε α) := fun a b =>
  match a, b with
  | .error x, .error y => decidable_of_iff (x = y) (by simp)
  | .ok x, .ok y => decidable_of_iff (x = y) (by simp)
  | .error _, .ok _ => isFalse (fun h => Except.noConfusion h)
  | .ok _, .error _ => isFalse (fun h => Except.noConfusion h)

/-- The evaluation step as a pure function of the text, classifying the
outcome: the same branch structure as `evaluate_expression`. -/
def evalClassify (text : List Char) : Except EvalError Frac :=
  let e := stripTrailingOps text
  if e.isEmpty then .error .empty
  else if !is_safe_expression e then .error .invalidExpr
  else
    match pyEval e with
    | .synErr => .error .invalidExpr
    | .divZero => .error .divisionByZero
    | .val v => .ok v

/-- The 310-character division that escapes the source's exception handling:
`10^309 / 1`.  Python's eval converts the 310-digit integer to a float for
true division and raises an uncaught OverflowError. -/
def overflowInput : List Char := '1' :: (List.replicate 309 '0' ++ "/1".data)

/-- Occurrence of a subterm inside a parsed expression. -/
inductive Subterm : PExpr → PExpr → Prop
  | refl (e : PExpr) : Subterm e e
  | negS {s e : PExpr} : Subterm s e → Subterm s (.neg e)
  | addL {s a b : PExpr} : Subterm s a → Subterm s (.add a b)
  | addR {s a b : PExpr} : Subterm s b → Subterm s (.add a b)
  | subL {s a b : PExpr} : Subterm s a → Subterm s (.sub a b)
  | subR {s a b : PExpr} : Subterm s b → Subterm s (.sub a b)
  | mulL {s a b : PExpr} : Subterm s a → Subterm s (.mul a b)
  | mulR {s a b : PExpr} : Subterm s b → Subterm s (.mul a b)
  | divL {s a b : PExpr} : Subterm s a → Subterm s (.div a b)
  | divR {s a b : PExpr} : Subterm s b → Subterm s (.div a b)

/-- Well-formedness of a display text: nonempty and without adjacent
operator characters (an invariant of all reachable states). -/
def GoodText (l : List Char) : Prop := l ≠ [] ∧ hasAdjacentOps l = false

/-! ## Unfolding equations for process_input

`process_input` branches first on the guard boolean and then on the token;
with the state destructured and the token concrete, each branch is a
definitional equality. -/

lemma process_input_digit_fresh (tx : List Char) (lr : Frac) (d : Fin 10) :
    process_input ⟨tx, lr, true⟩ (Token.digit d) = ⟨[digitChar d.val], lr, false⟩ := rfl

lemma process_input_dot_fresh (tx : List Char) (lr : Frac) :
    process_input ⟨tx, lr, true⟩ Token.dot = ⟨['.'], lr, false⟩ := rfl

lemma process_input_clear_fresh (tx : List Char) (lr : Frac) :
    process_input ⟨tx, lr, true⟩ Token.clear = ⟨tx, lr, true⟩ := rfl

lemma process_input_del_fresh (tx : List Char) (lr : Frac) :
    process_input ⟨tx, lr, true⟩ Token.del = ⟨tx, lr, true⟩ := rfl

lemma process_input_eq_fresh (tx : List Char) (lr : Frac) :
    process_input ⟨tx, lr, true⟩ Token.eq = ⟨tx, lr, true⟩ := rfl

lemma process_input_clear_nonfresh (tx : List Char) (lr : Frac) :
    process_input ⟨tx, lr, false⟩ Token.clear = ⟨"0".data, Frac.ofInt 0, true⟩ := rfl

lemma process_input_del_nonfresh (tx : List Char) (lr : Frac) :
    process_input ⟨tx, lr, false⟩ Token.del =
      if tx.length > 1 then ⟨tx.dropLast, lr, false⟩ else ⟨"0".data, lr, false⟩ := rfl

lemma process_input_eq_nonfresh (tx : List Char) (lr : Frac) :
    process_input ⟨tx, lr, false⟩ Token.eq = evaluate_expression ⟨tx, lr, false⟩ := rfl

lemma process_input_op (tx : List Char) (lr : Frac) (ne : Bool) (o : Op) :
    process_input ⟨tx, lr, ne⟩ (Token.op o) =
      if endsWithOp tx then ⟨tx.dropLast ++ [opChar o], lr, false⟩
      else ⟨tx ++ [opChar o], lr, false⟩ := by
  cases ne <;> rfl

lemma process_input_digit_nonfresh (tx : List Char) (lr : Frac) (d : Fin 10) :
    process_input ⟨tx, lr, false⟩ (Token.digit d) =
      if tx = "0".data then ⟨[digitChar d.val], lr, false⟩
      else ⟨tx ++ [digitChar d.val], lr, false⟩ := rfl

lemma process_input_dot_nonfresh (tx : List Char) (lr : Frac) :
    process_input ⟨tx, lr, false⟩ Token.dot =
      if dotInLastRun tx then ⟨tx, lr, false⟩ else ⟨tx ++ ['.'], lr, false⟩ := rfl

/-! ## Theorems for the claims -/

/-- C10: in fresh-start mode (`new_expression = true`) the tokens `C`, `DEL`
and `=` leave the entire state unchanged: they pass the guard of lines
112-117 (they are not operators), are neither digits nor the dot, and the
guard's `return` fires before their branches. -/
theorem C10_fresh_mode_frame (s : CalcState) (h : s.new_expression = true) :
    process_input s Token.clear = s ∧ process_input s Token.del = s ∧
      process_input s Token.eq = s := by
  obtain ⟨tx, lr, ne⟩ := s
  cases ne
  · simp at h
  · exact ⟨rfl, rfl, rfl⟩

/-- C10 witness: the initial state is fresh and all three tokens fix it. -/
theorem C10_witness :
    process_input initState Token.clear = initState ∧
      process_input initState Token.del = initState ∧
      process_input initState Token.eq = initState :=
  C10_fresh_mode_frame initState rfl

/-- C1: Clear is not unconditional.  At the reachable state obtained by
pressing `5` then `=` (text `'5'`, last result 5, fresh-start set),
applying Clear leaves the state unchanged — text `'5'`, not `'0'` — because
the guard of lines 112-117 swallows the `C` token. -/
theorem C1_clear_ignored_after_result :
    applyTokens initState [Token.digit 5, Token.eq] =
        (⟨"5".data, ⟨5, 1⟩, true⟩ : CalcState) ∧
      process_input (⟨"5".data, ⟨5, 1⟩, true⟩ : CalcState) Token.clear =
        (⟨"5".data, ⟨5, 1⟩, true⟩ : CalcState) ∧
      "5".data ≠ "0".data := by decide

/-- C4: an Equals failure does not always set the fresh-start flag.  After
the tokens `.`, `=`, `+`, `=` the final Equals fails — the stripped text
`'Error'` is rejected by `is_safe_expression` and the display shows the
error token — yet `new_expression` stays `false`, so a following digit
appends to the error marker, producing `'Error5'` instead of a clean
start. -/
theorem C4_failure_keeps_stale_flag :
    applyTokens initState [Token.dot, Token.eq, Token.op .plus, Token.eq] =
        (⟨"Error".data, ⟨0, 1⟩, false⟩ : CalcState) ∧
      applyTokens initState [Token.dot, Token.eq, Token.op .plus, Token.eq, Token.digit 5] =
        (⟨"Error5".data, ⟨0, 1⟩, false⟩ : CalcState) := by decide

set_option maxRecDepth 40000 in
/-- C2: the 310-character division `10^309 / 1` passes
`is_safe_expression`, is unchanged by trailing-operator stripping, and in
the exact-arithmetic model evaluates without any syntax or division error —
so it reaches the host eval call of line 180, where Python raises an
OverflowError that the except clauses of lines 198-201 do not catch. -/
theorem C2_overflow_input_reaches_eval :
    is_safe_expression overflowInput = true ∧
      stripTrailingOps overflowInput = overflowInput ∧
      pyEval overflowInput ≠ .synErr ∧ pyEval overflowInput ≠ .divZero := by decide

/-- C9: the strings `'3..5'`, `'5**3'` and `'(2+3'` are all rejected as
invalid expressions by the evaluation step (double dot in one numeric run,
adjacent operator characters, unbalanced parenthesis counts). -/
theorem C9_invalid_strings_rejected :
    evalClassify "3..5".data = .error .invalidExpr ∧
      evalClassify "5**3".data = .error .invalidExpr ∧
      evalClassify "(2+3".data = .error .invalidExpr := by decide

/-- C3 counterexample: `'1+05'` conforms to the restricted grammar — the
source's own validator accepts it — yet evaluation reports an invalid
expression rather than computing 6, because the host rejects the
leading-zero integer literal `05`. -/
theorem C3_counterexample :
    is_safe_expression "1+05".data = true ∧
      evalClassify "1+05".data = .error .invalidExpr := by decide

/-- C3 amended: a grammar-conforming string can still be rejected when one
of its numeric literals violates the host's literal syntax, as in `'1+05'`;
grammar-conforming strings without such literals evaluate with standard
operator precedence, e.g. `'1+5'` gives 6 and `'12+3*4'` gives 24, not
60. -/
theorem C3_amended_evaluation :
    evalClassify "1+05".data = .error .invalidExpr ∧
      evalClassify "1+5".data = .ok ⟨6, 1⟩ ∧
      evalClassify "12+3*4".data = .ok ⟨24, 1⟩ ∧
      (evaluate_expression ⟨"12+3*4".data, ⟨0, 1⟩, false⟩).display_text = "24".data := by
  decide

/-- C5 counterexample: from the reachable state obtained by pressing `5`
then `=` the Delete token is swallowed by the fresh-start guard, so no
number of Delete applications ever brings the text to `'0'`. -/
theorem C5_counterexample :
    ¬ ∃ n, ((fun st => process_input st Token.del)^[n]
        (applyTokens initState [Token.digit 5, Token.eq])).display_text = "0".data := by
  rintro ⟨n, hn⟩
  have hs : applyTokens initState [Token.digit 5, Token.eq] =
      (⟨"5".data, ⟨5, 1⟩, true⟩ : CalcState) := by decide
  rw [hs] at hn
  have hall : ∀ k, (fun st => process_input st Token.del)^[k]
      (⟨"5".data, ⟨5, 1⟩, true⟩ : CalcState) = (⟨"5".data, ⟨5, 1⟩, true⟩ : CalcState) :=
    Function.iterate_fixed (by decide)
  rw [hall n] at hn
  exact absurd hn (by decide)

lemma delete_reaches_zero : ∀ (n : Nat) (s : CalcState), s.new_expression = false →
    s.display_text.length ≤ n →
    ∃ k, ((fun st => process_input st Token.del)^[k] s).display_text = "0".data := by
  intro n
  induction n with
  | zero =>
      intro s h hl
      obtain ⟨tx, lr, ne⟩ := s
      have hne : ne = false := h
      subst hne
      have htext : tx = [] := List.length_eq_zero.mp (Nat.le_zero.mp hl)
      subst htext
      exact ⟨1, rfl⟩
  | succ n ih =>
      intro s h hl
      obtain ⟨tx, lr, ne⟩ := s
      have hne : ne = false := h
      subst hne
      have hl2 : tx.length ≤ n + 1 := hl
      by_cases hshort : tx.length ≤ 1
      · refine ⟨1, ?_⟩
        show (process_input ⟨tx, lr, false⟩ Token.del).display_text = "0".data
        rw [process_input_del_nonfresh, if_neg (by omega)]
      · have hstep : process_input ⟨tx, lr, false⟩ Token.del = ⟨tx.dropLast, lr, false⟩ := by
          rw [process_input_del_nonfresh, if_pos (by omega)]
        obtain ⟨k, hk⟩ := ih ⟨tx.dropLast, lr, false⟩ rfl
          (by simp only [List.length_dropLast]; omega)
        refine ⟨k + 1, ?_⟩
        rw [Function.iterate_succ_apply]
        show ((fun st => process_input st Token.del)^[k]
          (process_input ⟨tx, lr, false⟩ Token.del)).display_text = "0".data
        rw [hstep]
        exact hk

/-- C5 amended: whenever `new_expression` is clear, repeated Delete always
reaches the text `'0'`; and from any nonempty text a Delete never produces
an empty text (in fresh-start mode it leaves the text unchanged, otherwise
it drops one character of a longer text or resets a one-character text to
`'0'`). -/
theorem C5_delete_terminates_amended :
    (∀ s : CalcState, s.new_expression = false →
        ∃ k, ((fun st => process_input st Token.del)^[k] s).display_text = "0".data) ∧
      (∀ s : CalcState, s.display_text ≠ [] →
        (process_input s Token.del).display_text ≠ []) := by
  constructor
  · intro s h
    exact delete_reaches_zero s.display_text.length s h le_rfl
  · intro s h
    obtain ⟨tx, lr, ne⟩ := s
    have htx : tx ≠ [] := h
    cases ne
    · by_cases hlen : tx.length > 1
      · show (process_input ⟨tx, lr, false⟩ Token.del).display_text ≠ []
        rw [process_input_del_nonfresh, if_pos hlen]
        exact List.ne_nil_of_length_pos (by rw [List.length_dropLast]; omega)
      · show (process_input ⟨tx, lr, false⟩ Token.del).display_text ≠ []
        rw [process_input_del_nonfresh, if_neg hlen]
        exact (by decide : ("0".data : List Char) ≠ [])
    · show (process_input ⟨tx, lr, true⟩ Token.del).display_text ≠ []
      rw [process_input_del_fresh]
      exact htx

/-- C5 witness: instantiation at the concrete non-fresh state with text
`'57'`. -/
theorem C5_witness :
    (∃ k, ((fun st => process_input st Token.del)^[k]
        (⟨['5', '7'], ⟨0, 1⟩, false⟩ : CalcState)).display_text = "0".data) ∧
      (process_input (⟨['5', '7'], ⟨0, 1⟩, false⟩ : CalcState) Token.del).display_text ≠ [] :=
  ⟨C5_delete_terminates_amended.1 _ rfl, C5_delete_terminates_amended.2 _ (by decide)⟩

/-! ## Formatting lemmas (for C8) -/

lemma digitChar_isDigit (n : Nat) : (digitChar n).isDigit = true := by
  unfold digitChar
  repeat' split
  all_goals decide

lemma natDigitsAux_digits : ∀ (fuel n : Nat), ∀ c ∈ natDigitsAux fuel n, c.isDigit = true := by
  intro fuel
  induction fuel with
  | zero => intro n c hc; simp [natDigitsAux] at hc
  | succ f ih =>
      intro n c hc
      by_cases h0 : n = 0
      · simp [natDigitsAux, h0] at hc
      · simp only [natDigitsAux, if_neg h0, List.mem_append, List.mem_singleton] at hc
        rcases hc with hc | hc
        · exact ih _ _ hc
        · rw [hc]; exact digitChar_isDigit _

lemma dot_not_mem_natStr (n : Nat) : '.' ∉ natStr n := by
  intro hc
  by_cases h0 : n = 0
  · unfold natStr at hc
    rw [if_pos h0] at hc
    exact absurd hc (by decide)
  · unfold natStr at hc
    rw [if_neg h0] at hc
    exact absurd (natDigitsAux_digits _ _ _ hc) (by decide)

lemma dot_not_mem_intStr (i : Int) : '.' ∉ intStr i := by
  intro hc
  unfold intStr at hc
  by_cases hneg : i < 0
  · rw [if_pos hneg] at hc
    rcases List.mem_cons.mp hc with h1 | h1
    · exact absurd h1 (by decide)
    · exact dot_not_mem_natStr _ h1
  · rw [if_neg hneg] at hc
    exact dot_not_mem_natStr _ hc

/-- C8: results that equal their own truncation are rendered through
`str(int(result))`: the display is the plain integer string, which contains
no decimal point (hence no trailing `.0`).  Concretely, evaluating `'7'`
displays `'7'` and evaluating `'2.5+2.5'` displays `'5'`. -/
theorem C8_integer_collapse :
    ((evaluate_expression ⟨"7".data, ⟨0, 1⟩, false⟩).display_text = "7".data ∧
      (evaluate_expression ⟨"2.5+2.5".data, ⟨0, 1⟩, false⟩).display_text = "5".data) ∧
    ∀ f : Frac, f.isInt = true →
      formatResult f = intStr (f.num / f.den) ∧ '.' ∉ formatResult f := by
  refine ⟨by decide, ?_⟩
  intro f h
  have hfmt : formatResult f = intStr (f.num / f.den) := by
    unfold formatResult
    rw [if_pos h]
  exact ⟨hfmt, by rw [hfmt]; exact dot_not_mem_intStr _⟩

/-- C8 witness: the value 500/100 of `'2.5+2.5'` is integral and is
rendered as the dot-free string `'5'`. -/
theorem C8_witness :
    Frac.isInt ⟨500, 100⟩ = true ∧ formatResult ⟨500, 100⟩ = intStr 5 ∧
      '.' ∉ formatResult ⟨500, 100⟩ :=
  ⟨by decide, by decide, (C8_integer_collapse.2 ⟨500, 100⟩ (by decide)).2⟩

/-! ## Error propagation in the evaluator (for C7) -/

lemma runErr_elim (x : RunErr) : x = RunErr.divZero := by cases x; rfl

lemma denoteP_error_propagates {s e : PExpr} (hs : Subterm s e) {x : RunErr}
    (h : denoteP s = .error x) : ∃ y, denoteP e = .error y := by
  induction hs with
  | refl => exact ⟨x, h⟩
  | negS hsub ih =>
      obtain ⟨y, hy⟩ := ih
      exact ⟨y, by rw [denoteP, hy]⟩
  | addL hsub ih =>
      obtain ⟨y, hy⟩ := ih
      exact ⟨y, by rw [denoteP, hy]⟩
  | addR hsub ih =>
      rename_i a b
      obtain ⟨y, hy⟩ := ih
      cases ha : denoteP a with
      | error z => exact ⟨z, by rw [denoteP, ha]⟩
      | ok va => exact ⟨y, by rw [denoteP, ha, hy]⟩
  | subL hsub ih =>
      obtain ⟨y, hy⟩ := ih
      exact ⟨y, by rw [denoteP, hy]⟩
  | subR hsub ih =>
      rename_i a b
      obtain ⟨y, hy⟩ := ih
      cases ha : denoteP a with
      | error z => exact ⟨z, by rw [denoteP, ha]⟩
      | ok va => exact ⟨y, by rw [denoteP, ha, hy]⟩
  | mulL hsub ih =>
      obtain ⟨y, hy⟩ := ih
      exact ⟨y, by rw [denoteP, hy]⟩
  | mulR hsub ih =>
      rename_i a b
      obtain ⟨y, hy⟩ := ih
      cases ha : denoteP a with
      | error z => exact ⟨z, by rw [denoteP, ha]⟩
      | ok va => exact ⟨y, by rw [denoteP, ha, hy]⟩
  | divL hsub ih =>
      obtain ⟨y, hy⟩ := ih
      exact ⟨y, by rw [denoteP, hy]⟩
  | divR hsub ih =>
      rename_i a b
      obtain ⟨y, hy⟩ := ih
      cases ha : denoteP a with
      | error z => exact ⟨z, by rw [denoteP, ha]⟩
      | ok va => exact ⟨y, by rw [denoteP, ha, hy]⟩

/-- C7: evaluating `'10/0'` classifies as division by zero and displays
`'Error: Div/0'`; and in general, whenever a division subterm's divisor
evaluates to zero, the whole expression evaluates to the division-by-zero
error rather than any value. -/
theorem C7_division_by_zero :
    (evalClassify "10/0".data = .error .divisionByZero ∧
      (evaluate_expression ⟨"10/0".data, ⟨0, 1⟩, false⟩).display_text =
        "Error: Div/0".data) ∧
    ∀ (e a b : PExpr) (vb : Frac), Subterm (.div a b) e → denoteP b = .ok vb →
      vb.num = 0 → denoteP e = .error .divZero := by
  refine ⟨by decide, ?_⟩
  intro e a b vb hsub hb hzero
  have hdiv : denoteP (.div a b) = .error RunErr.divZero := by
    cases ha : denoteP a with
    | error z =>
        cases z
        rw [denoteP, ha]
    | ok va =>
        rw [denoteP, ha, hb]
        change (if vb.num = 0 then Except.error RunErr.divZero
          else Except.ok (va.div vb)) = Except.error RunErr.divZero
        rw [if_pos hzero]
  obtain ⟨y, hy⟩ := denoteP_error_propagates hsub hdiv
  cases y
  exact hy

/-- C7 witness: the expression `10 / 0` itself. -/
theorem C7_witness :
    denoteP (PExpr.div (PExpr.num ⟨10, 1⟩) (PExpr.num ⟨0, 1⟩)) = .error .divZero :=
  C7_division_by_zero.2 _ _ _ ⟨0, 1⟩ (Subterm.refl _) rfl rfl

/-! ## Adjacency lemmas and the reachable-state invariant (for C6) -/

lemma endsWithOp_concat (l : List Char) (c : Char) : endsWithOp (l ++ [c]) = isOpChar c := by
  induction l with
  | nil => rfl
  | cons a l ih =>
      cases l with
      | nil => rfl
      | cons b r => exact ih

lemma hasAdj_concat (l : List Char) (c : Char) :
    hasAdjacentOps (l ++ [c]) = (hasAdjacentOps l || (endsWithOp l && isOpChar c)) := by
  induction l with
  | nil => simp [hasAdjacentOps, endsWithOp]
  | cons a l ih =>
      cases l with
      | nil => simp [hasAdjacentOps, endsWithOp]
      | cons b r =>
          show (isOpChar a && isOpChar b || hasAdjacentOps ((b :: r) ++ [c])) = _
          rw [ih]
          show _ = (isOpChar a && isOpChar b || hasAdjacentOps (b :: r)
            || (endsWithOp (b :: r) && isOpChar c))
          rw [Bool.or_assoc]

lemma hasAdj_dropLast {l : List Char} (h : hasAdjacentOps l = false) :
    hasAdjacentOps l.dropLast = false := by
  rcases List.eq_nil_or_concat l with rfl | ⟨l2, c, rfl⟩
  · exact h
  · rw [List.concat_eq_append] at h ⊢
    rw [hasAdj_concat] at h
    rw [List.dropLast_concat]
    exact (Bool.or_eq_false_iff.mp h).1

lemma all_nonop_noAdj : ∀ {l : List Char}, (∀ c ∈ l, isOpChar c = false) →
    hasAdjacentOps l = false := by
  intro l
  induction l with
  | nil => intro _; rfl
  | cons a l ih =>
      intro h
      cases l with
      | nil => rfl
      | cons b r =>
          show (isOpChar a && isOpChar b || hasAdjacentOps (b :: r)) = false
          rw [h b (by simp), Bool.and_false, Bool.false_or]
          exact ih (fun c hc => h c (List.mem_cons_of_mem a hc))

lemma cons_nonop_noAdj {l : List Char} (a : Char) (h : ∀ c ∈ l, isOpChar c = false) :
    hasAdjacentOps (a :: l) = false := by
  cases l with
  | nil => rfl
  | cons b r =>
      show (isOpChar a && isOpChar b || hasAdjacentOps (b :: r)) = false
      rw [h b (by simp), Bool.and_false, Bool.false_or]
      exact all_nonop_noAdj h

lemma noAdj_base {tx : List Char} (hadj : hasAdjacentOps tx = false)
    (hend : endsWithOp tx = true) :
    hasAdjacentOps tx.dropLast = false ∧ endsWithOp tx.dropLast = false := by
  rcases List.eq_nil_or_concat tx with rfl | ⟨l2, c, rfl⟩
  · exact absurd hend (by decide)
  · rw [List.concat_eq_append] at hadj hend ⊢
    rw [List.dropLast_concat]
    rw [endsWithOp_concat] at hend
    rw [hasAdj_concat] at hadj
    obtain ⟨ha1, ha2⟩ := Bool.or_eq_false_iff.mp hadj
    refine ⟨ha1, ?_⟩
    cases hb : endsWithOp l2
    · rfl
    · rw [hb, hend] at ha2
      exact absurd ha2 (by decide)

lemma noAdj_append_of_end_false {base : List Char} (h1 : hasAdjacentOps base = false)
    (h2 : endsWithOp base = false) (c : Char) : hasAdjacentOps (base ++ [c]) = false := by
  rw [hasAdj_concat, h1, h2]
  rfl

lemma noAdj_append_nonop {base : List Char} (h1 : hasAdjacentOps base = false) {c : Char}
    (hc : isOpChar c = false) : hasAdjacentOps (base ++ [c]) = false := by
  rw [hasAdj_concat, h1, hc, Bool.and_false, Bool.or_false]

lemma isDigit_not_op {c : Char} (h : c.isDigit = true) : isOpChar c = false := by
  cases hop : isOpChar c
  · rfl
  · exfalso
    have hor : ((c = '+' ∨ c = '-') ∨ c = '*') ∨ c = '/' := by
      simpa [isOpChar] using hop
    rcases hor with ((rfl | rfl) | rfl) | rfl <;> exact absurd h (by decide)

lemma natStr_nonop (n : Nat) : ∀ c ∈ natStr n, isOpChar c = false := by
  intro c hc
  by_cases h0 : n = 0
  · unfold natStr at hc
    rw [if_pos h0] at hc
    have := List.mem_singleton.mp hc
    subst this
    rfl
  · unfold natStr at hc
    rw [if_neg h0] at hc
    exact isDigit_not_op (natDigitsAux_digits _ _ _ hc)

lemma natStr_ne_nil (n : Nat) : natStr n ≠ [] := by
  by_cases h0 : n = 0
  · unfold natStr
    rw [if_pos h0]
    exact List.cons_ne_nil _ _
  · unfold natStr
    rw [if_neg h0]
    show (if n = 0 then [] else natDigitsAux n (n / 10) ++ [digitChar (n % 10)]) ≠ []
    rw [if_neg h0]
    simp

lemma intStr_ne_nil (i : Int) : intStr i ≠ [] := by
  unfold intStr
  by_cases hneg : i < 0
  · rw [if_pos hneg]
    exact List.cons_ne_nil _ _
  · rw [if_neg hneg]
    exact natStr_ne_nil _

lemma intStr_noAdj (i : Int) : hasAdjacentOps (intStr i) = false := by
  unfold intStr
  by_cases hneg : i < 0
  · rw [if_pos hneg]
    exact cons_nonop_noAdj _ (natStr_nonop _)
  · rw [if_neg hneg]
    exact all_nonop_noAdj (natStr_nonop _)

lemma fracDigitsAux_digits : ∀ (fuel r d : Nat), ∀ c ∈ fracDigitsAux fuel r d,
    c.isDigit = true := by
  intro fuel
  induction fuel with
  | zero => intro r d c hc; simp [fracDigitsAux] at hc
  | succ f ih =>
      intro r d c hc
      by_cases h0 : r = 0
      · simp [fracDigitsAux, h0] at hc
      · simp only [fracDigitsAux, if_neg h0, List.mem_cons] at hc
        rcases hc with hc | hc
        · rw [hc]; exact digitChar_isDigit _
        · exact ih _ _ _ hc

lemma stripTrailingZeros_subset {l : List Char} {c : Char}
    (hc : c ∈ stripTrailingZeros l) : c ∈ l := by
  unfold stripTrailingZeros at hc
  rw [List.mem_reverse] at hc
  exact List.mem_reverse.mp ((List.dropWhile_sublist _).subset hc)

lemma fracTail_nonop (f : Frac) : ∀ c ∈ fracTail f, isOpChar c = false := by
  intro c hc
  simp only [fracTail] at hc
  rcases List.mem_append.mp hc with hc | hc
  · exact natStr_nonop _ _ hc
  · rcases List.mem_cons.mp hc with rfl | hc
    · rfl
    · split at hc
      · have := List.mem_singleton.mp hc
        subst this
        rfl
      · exact isDigit_not_op (fracDigitsAux_digits _ _ _ _ (stripTrailingZeros_subset hc))

lemma fracTail_ne_nil (f : Frac) : fracTail f ≠ [] := by
  simp only [fracTail]
  intro hc
  rcases List.append_eq_nil.mp hc with ⟨h1, h2⟩
  exact List.cons_ne_nil _ _ h2

lemma fracStr_ne_nil (f : Frac) : fracStr f ≠ [] := by
  unfold fracStr
  intro hc
  exact fracTail_ne_nil f (List.append_eq_nil.mp hc).2

lemma fracStr_noAdj (f : Frac) : hasAdjacentOps (fracStr f) = false := by
  unfold fracStr
  by_cases hneg : f.isNeg = true
  · rw [if_pos hneg]
    exact cons_nonop_noAdj _ (fracTail_nonop f)
  · rw [if_neg hneg]
    exact all_nonop_noAdj (fracTail_nonop f)

lemma formatResult_good (f : Frac) : GoodText (formatResult f) := by
  unfold formatResult GoodText
  by_cases h : f.isInt = true
  · rw [if_pos h]
    exact ⟨intStr_ne_nil _, intStr_noAdj _⟩
  · rw [if_neg h]
    exact ⟨fracStr_ne_nil _, fracStr_noAdj _⟩

lemma opChar_isOp (o : Op) : isOpChar (opChar o) = true := by cases o <;> decide

lemma goodText_zero : GoodText ("0".data) := ⟨by decide, by decide⟩

lemma goodText_error : GoodText ("Error".data) := ⟨by decide, by decide⟩

lemma goodText_div0 : GoodText ("Error: Div/0".data) := ⟨by decide, by decide⟩

lemma goodText_single (c : Char) : GoodText [c] := ⟨by simp, rfl⟩

lemma evaluate_expression_good (s : CalcState) :
    GoodText (evaluate_expression s).display_text := by
  unfold evaluate_expression
  dsimp only
  split
  · exact goodText_zero
  · split
    · exact goodText_error
    · split
      · exact goodText_error
      · exact goodText_div0
      · exact formatResult_good _

lemma reachable_good {s : CalcState} (h : Reachable s) : GoodText s.display_text := by
  induction h with
  | init => exact ⟨by decide, by decide⟩
  | step s t hs ih =>
      obtain ⟨tx, lr, ne⟩ := s
      obtain ⟨hne, hadj⟩ := ih
      cases t with
      | clear =>
          cases ne
          · rw [process_input_clear_nonfresh]
            exact goodText_zero
          · rw [process_input_clear_fresh]
            exact ⟨hne, hadj⟩
      | del =>
          cases ne
          · rw [process_input_del_nonfresh]
            by_cases hlen : tx.length > 1
            · rw [if_pos hlen]
              refine ⟨List.ne_nil_of_length_pos ?_, hasAdj_dropLast hadj⟩
              rw [List.length_dropLast]
              omega
            · rw [if_neg hlen]
              exact goodText_zero
          · rw [process_input_del_fresh]
            exact ⟨hne, hadj⟩
      | eq =>
          cases ne
          · rw [process_input_eq_nonfresh]
            exact evaluate_expression_good _
          · rw [process_input_eq_fresh]
            exact ⟨hne, hadj⟩
      | dot =>
          cases ne
          · rw [process_input_dot_nonfresh]
            by_cases hdot : dotInLastRun tx = true
            · rw [if_pos hdot]
              exact ⟨hne, hadj⟩
            · rw [if_neg hdot]
              exact ⟨by simp, noAdj_append_nonop hadj (by rfl)⟩
          · rw [process_input_dot_fresh]
            exact goodText_single '.'
      | digit d =>
          cases ne
          · rw [process_input_digit_nonfresh]
            by_cases hz : tx = "0".data
            · rw [if_pos hz]
              exact ⟨by simp, rfl⟩
            · rw [if_neg hz]
              exact ⟨by simp, noAdj_append_nonop hadj (isDigit_not_op (digitChar_isDigit d.val))⟩
          · rw [process_input_digit_fresh]
            exact ⟨by simp, rfl⟩
      | op o =>
          rw [process_input_op]
          by_cases hend : endsWithOp tx = true
          · rw [if_pos hend]
            obtain ⟨hb1, hb2⟩ := noAdj_base hadj hend
            exact ⟨by simp, noAdj_append_of_end_false hb1 hb2 _⟩
          · rw [if_neg hend]
            simp only [Bool.not_eq_true] at hend
            exact ⟨by simp, noAdj_append_of_end_false hadj hend _⟩

/-- C6: from any reachable state, applying two Operator tokens in a row
replaces the trailing operator left by the first with the second (the
second text is the first text with its last character replaced) and the
resulting text contains no two adjacent operator characters. -/
theorem C6_operator_replacement (s : CalcState) (o1 o2 : Op) (h : Reachable s) :
    (process_input (process_input s (Token.op o1)) (Token.op o2)).display_text
        = (process_input s (Token.op o1)).display_text.dropLast ++ [opChar o2] ∧
      hasAdjacentOps
        ((process_input (process_input s (Token.op o1)) (Token.op o2)).display_text)
        = false := by
  obtain ⟨hne, hadj⟩ := reachable_good h
  obtain ⟨tx, lr, ne⟩ := s
  have hadj2 : hasAdjacentOps tx = false := hadj
  by_cases hend : endsWithOp tx = true
  · have h1 : process_input ⟨tx, lr, ne⟩ (Token.op o1) =
        ⟨tx.dropLast ++ [opChar o1], lr, false⟩ := by
      rw [process_input_op tx lr ne o1, if_pos hend]
    have h2 : process_input (⟨tx.dropLast ++ [opChar o1], lr, false⟩ : CalcState)
        (Token.op o2) = ⟨tx.dropLast ++ [opChar o2], lr, false⟩ := by
      rw [process_input_op (tx.dropLast ++ [opChar o1]) lr false o2,
        if_pos (by rw [endsWithOp_concat]; exact opChar_isOp o1), List.dropLast_concat]
    rw [h1, h2]
    obtain ⟨hb1, hb2⟩ := noAdj_base hadj2 hend
    constructor
    · show tx.dropLast ++ [opChar o2] = (tx.dropLast ++ [opChar o1]).dropLast ++ [opChar o2]
      rw [List.dropLast_concat]
    · exact noAdj_append_of_end_false hb1 hb2 _
  · simp only [Bool.not_eq_true] at hend
    have h1 : process_input ⟨tx, lr, ne⟩ (Token.op o1) = ⟨tx ++ [opChar o1], lr, false⟩ := by
      rw [process_input_op tx lr ne o1, if_neg (by simp [hend])]
    have h2 : process_input (⟨tx ++ [opChar o1], lr, false⟩ : CalcState)
        (Token.op o2) = ⟨tx ++ [opChar o2], lr, false⟩ := by
      rw [process_input_op (tx ++ [opChar o1]) lr false o2,
        if_pos (by rw [endsWithOp_concat]; exact opChar_isOp o1), List.dropLast_concat]
    rw [h1, h2]
    constructor
    · show tx ++ [opChar o2] = (tx ++ [opChar o1]).dropLast ++ [opChar o2]
      rw [List.dropLast_concat]
    · exact noAdj_append_of_end_false hadj2 hend _

/-- C6 witness: instantiation at the initial state with `+` then `-`. -/
theorem C6_witness :
    (process_input (process_input initState (Token.op Op.plus)) (Token.op Op.minus)).display_text
        = (process_input initState (Token.op Op.plus)).display_text.dropLast
          ++ [opChar Op.minus] ∧
      hasAdjacentOps
        ((process_input (process_input initState (Token.op Op.plus))
          (Token.op Op.minus)).display_text) = false :=
  C6_operator_replacement initState Op.plus Op.minus Reachable.init
